import Mathlib

/-!
Verification of `src/clients/simple_client.py` (interactive MCP + Ollama
client).  The file shallowly embeds the client's pure logic: JSON
serialization as performed by `json.dumps(..., indent=2)`, the string
helpers `str.strip` / `str.lower` / `str.partition` / `textwrap.indent` /
`textwrap.dedent`, the tool-result formatter, the argument parser, the
Ollama chat-reply extraction, the plan-prompt builder, URL splitting as
performed by `urllib.parse.urlsplit` / `urlunsplit`, and the interactive
command-dispatch loop.  External collaborators (the MCP session, the HTTP
layer, `json.loads`) are modelled as oracles supplied through a `World`
record, exactly as the spec's component model prescribes; everything the
client computes from the oracle answers is translated from the source.

Modelling notes, applying throughout:
* Python `str` values are modelled by Lean `String` / `List Char`; the
  client only manipulates text at the code-point level, never bytes.
* Floating-point JSON numbers never reach any logic the claims touch, so
  `Json.num` carries an `Int` (Python renders ints identically).
* Unicode case-mapping beyond ASCII (`str.lower`) and unicode whitespace
  beyond the ASCII set (`str.strip`) are not modelled; every verb and
  every string the client itself produces is ASCII.
* `os.linesep` is modelled as `"\n"` (the POSIX value; the program targets
  a Linux deployment).
-/

/-- JSON values as produced by `json.loads` / consumed by `json.dumps`.
Object member order is significant: Python dicts preserve insertion order
and `json.dumps` is called without `sort_keys`. -/
inductive Json where
  | null : Json
  | bool : Bool → Json
  | num : Int → Json
  | str : String → Json
  | arr : List Json → Json
  | obj : List (String × Json) → Json

/-- Python truthiness of a JSON value (`if not message:` etc.):
`None`, `False`, `0`, `""`, `[]`, `{}` are falsy. -/
def jsonTruthy : Json → Bool
  | .null => false
  | .bool b => b
  | .num n => n != 0
  | .str s => s ≠ ""
  | .arr xs => !xs.isEmpty
  | .obj kvs => !kvs.isEmpty

/-- First binding of a key in a JSON object, as Python `dict.get`. -/
def jsonLookup (kvs : List (String × Json)) (k : String) : Option Json :=
  match kvs.find? (fun kv => kv.1 = k) with
  | some kv => some kv.2
  | none => none

/-- Lower-case hex digits, as CPython's `'\u%04x'` formatting. -/
def hexDigit (n : Nat) : Char :=
  if n < 10 then Char.ofNat (48 + n) else Char.ofNat (87 + n)

/-- Four-digit lower-case hex rendering of a code unit. -/
def hex4 (n : Nat) : String :=
  String.mk [hexDigit (n / 4096 % 16), hexDigit (n / 256 % 16),
             hexDigit (n / 16 % 16), hexDigit (n % 16)]

/-- Escape one character the way `json.dumps` (default `ensure_ascii=True`)
does: `"` and `\` get a backslash, the five short escapes are used where
they exist, other control characters and all non-ASCII characters become
`\uXXXX` (with a surrogate pair above the BMP). -/
def jsonEscapeChar (c : Char) : String :=
  if c = '"' then "\\\""
  else if c = '\\' then "\\\\"
  else if c = '\n' then "\\n"
  else if c = '\r' then "\\r"
  else if c = '\t' then "\\t"
  else if c = Char.ofNat 8 then "\\b"
  else if c = Char.ofNat 12 then "\\f"
  else if c.toNat < 32 then "\\u" ++ hex4 c.toNat
  else if c.toNat < 127 then String.mk [c]
  else if c.toNat ≤ 65535 then "\\u" ++ hex4 c.toNat
  else
    let v := c.toNat - 65536
    "\\u" ++ hex4 (55296 + v / 1024) ++ "\\u" ++ hex4 (56320 + v % 1024)

/-- Body of a JSON string literal as `json.dumps` renders it. -/
def jsonEscape (s : String) : String :=
  s.data.foldr (fun c acc => jsonEscapeChar c ++ acc) ""

/-- `2 * level` spaces: the per-level padding of `json.dumps(..., indent=2)`. -/
def jsonPad (level : Nat) : String :=
  String.mk (List.replicate (2 * level) ' ')

mutual

/-- `json.dumps(value, indent=2)` at nesting depth `level`: with an indent,
CPython opens a container with a newline, separates items with `",\n"`,
uses `": "` as the key separator and closes on a fresh line at the parent
indentation; empty containers render inline. -/
def jsonDumpsAt (level : Nat) : Json → String
  | .null => "null"
  | .bool true => "true"
  | .bool false => "false"
  | .num n => toString n
  | .str s => "\"" ++ jsonEscape s ++ "\""
  | .arr [] => "[]"
  | .arr (x :: xs) =>
      "[\n" ++ String.intercalate ",\n" (jsonDumpsList (level + 1) (x :: xs))
        ++ "\n" ++ jsonPad level ++ "]"
  | .obj [] => "\x7b\x7d"
  | .obj (kv :: kvs) =>
      "\x7b\n" ++ String.intercalate ",\n" (jsonDumpsObj (level + 1) (kv :: kvs))
        ++ "\n" ++ jsonPad level ++ "\x7d"

/-- Rendered items of an array, each on its own indented line. -/
def jsonDumpsList (level : Nat) : List Json → List String
  | [] => []
  | x :: xs => (jsonPad level ++ jsonDumpsAt level x) :: jsonDumpsList level xs

/-- Rendered members of an object, each on its own indented line. -/
def jsonDumpsObj (level : Nat) : List (String × Json) → List String
  | [] => []
  | (k, v) :: kvs =>
      (jsonPad level ++ "\"" ++ jsonEscape k ++ "\": " ++ jsonDumpsAt level v)
        :: jsonDumpsObj level kvs

end

/-- `json.dumps(value, indent=2)` as the client calls it. -/
def jsonDumps (j : Json) : String := jsonDumpsAt 0 j

/-- ASCII whitespace recognised by Python's default `str.strip` (the
unicode-only whitespace code points are not modelled; no input the client
produces contains them). -/
def isPyWs (c : Char) : Bool :=
  c = ' ' ∨ c = '\t' ∨ c = '\n' ∨ c = '\r' ∨ c = Char.ofNat 11 ∨ c = Char.ofNat 12

/-- `str.strip()` on a character list. -/
def pyStripL (l : List Char) : List Char :=
  ((l.dropWhile isPyWs).reverse.dropWhile isPyWs).reverse

/-- `str.strip()`. -/
def pyStrip (s : String) : String := String.mk (pyStripL s.data)

/-- `str.lower()` (ASCII case mapping; see the header note). -/
def pyLower (s : String) : String := String.mk (s.data.map Char.toLower)

/-- `str.partition(" ")`, keeping the first and last component: the text
before the first space, and the text after it (empty when there is no
space — exactly how the client uses the triple). -/
def partitionSpL : List Char → List Char × List Char
  | [] => ([], [])
  | c :: r =>
      if c = ' ' then ([], r)
      else
        let q := partitionSpL r
        (c :: q.1, q.2)

/-- `str.partition(" ")` on strings. -/
def partitionSp (s : String) : String × String :=
  let q := partitionSpL s.data
  (String.mk q.1, String.mk q.2)

/-- Split a character list at every `'\n'`; the Python line structure used
by `textwrap.indent` / `textwrap.dedent`.  Always returns at least one
(possibly empty) line. -/
def splitNl : List Char → List (List Char)
  | [] => [[]]
  | c :: r =>
      if c = '\n' then [] :: splitNl r
      else
        match splitNl r with
        | [] => [[c]]
        | h :: t => (c :: h) :: t

/-- Re-join lines with `'\n'`; the inverse of `splitNl`. -/
def joinNl (ls : List (List Char)) : List Char :=
  match ls with
  | [] => []
  | [l] => l
  | l :: ls => l ++ '\n' :: joinNl ls

/-- `textwrap.indent(text, "  ")`: prefix two spaces to every line that
contains a non-whitespace character (the default predicate; the client
only feeds it `json.dumps` output, which contains no line separator other
than `'\n'`). -/
def pyIndent2 (s : String) : String :=
  String.mk (joinNl ((splitNl s.data).map
    (fun l => if l.any (fun c => !isPyWs c) then ' ' :: ' ' :: l else l)))

/-- A line consisting solely of `[ \t]+`, which `textwrap.dedent` blanks
before computing the common margin. -/
def wsOnlyLine (l : List Char) : Bool :=
  !l.isEmpty && l.all (fun c => c = ' ' ∨ c = '\t')

/-- Leading `[ \t]*` run of a line. -/
def leadingWs (l : List Char) : List Char :=
  l.takeWhile (fun c => c = ' ' ∨ c = '\t')

/-- Longest common prefix of two character lists. -/
def lcp : List Char → List Char → List Char
  | a :: as, b :: bs => if a = b then a :: lcp as bs else []
  | _, _ => []

/-- One step of the margin scan: a line with a non-`[ \t]` character
contributes its leading whitespace (intersected with the margin so far);
other lines are ignored. -/
def dedentStep (acc : Option (List Char)) (l : List Char) : Option (List Char) :=
  if l.any (fun c => !(c = ' ' ∨ c = '\t')) then
    match acc with
    | none => some (leadingWs l)
    | some m => some (lcp m (leadingWs l))
  else acc

/-- Common margin of the dedent input: the longest common leading
whitespace of all lines that contain a non-`[ \t]` character. -/
def dedentMargin (lines : List (List Char)) : Option (List Char) :=
  lines.foldl dedentStep none

/-- `textwrap.dedent(text)` (the CPython ≤ 3.12 algorithm): blank every
`[ \t]`-only line, compute the common margin over the remaining lines
with content, and — when the margin is non-empty — strip it from every
line that starts with it. -/
def pyDedentL (l : List Char) : List Char :=
  let blanked := (splitNl l).map (fun ln => if wsOnlyLine ln then [] else ln)
  let margin := (dedentMargin blanked).getD []
  if margin.isEmpty then joinNl blanked
  else
    joinNl (blanked.map (fun ln =>
      if margin.isPrefixOf ln then ln.drop margin.length else ln))

/-- `textwrap.dedent` on strings. -/
def pyDedent (s : String) : String := String.mk (pyDedentL s.data)

/-- `mcp.types.CallToolResult` as far as the client reads it: the error
flag, the optional structured payload and `_meta` dicts, and the content
blocks.  A content block is modelled by the JSON value that
`block.model_dump(exclude_none=True)` produces for it — the only form the
client ever looks at. -/
structure CallToolResult where
  isError : Bool := false
  structuredContent : Option (List (String × Json)) := none
  meta : Option (List (String × Json)) := none
  content : List Json := []

/-- Python truthiness of an optional dict field (`if result.meta:`):
falsy when absent and when present but empty. -/
def truthyDict : Option (List (String × Json)) → Bool
  | none => false
  | some kvs => !kvs.isEmpty

/-- `format_tool_result` (simple_client.py lines 111-124), translated
statement by statement: a status line, then the `structured:` section when
the payload is truthy, then the `meta:` section when the metadata is
truthy, then every content block, all joined with newlines. -/
def format_tool_result (r : CallToolResult) : String :=
  let lines : List String :=
    ["status: " ++ (if r.isError then "error" else "ok")]
  let lines :=
    if truthyDict r.structuredContent then
      lines ++ ["structured:",
        pyIndent2 (jsonDumps (Json.obj (r.structuredContent.getD [])))]
    else lines
  let lines :=
    if truthyDict r.meta then
      lines ++ ["meta:", pyIndent2 (jsonDumps (Json.obj (r.meta.getD [])))]
    else lines
  let lines := lines ++ r.content.map (fun b => pyIndent2 (jsonDumps b))
  String.intercalate "\n" lines

/-- A raised Python exception, as far as the client's `except` clauses
distinguish them: `httpx.HTTPError` (caught by the `chat`/`plan`/`status`
handlers), any other `Exception` subclass (caught only by `call`'s broad
guard), `SystemExit`, and the remaining `BaseException`-only signals
(`KeyboardInterrupt`, `asyncio.CancelledError`).  The carried string is
`str(exc)`, which is what the diagnostics interpolate. -/
inductive PyErr where
  | httpError : String → PyErr
  | exception : String → PyErr
  | systemExit : String → PyErr
  | baseExc : String → PyErr

/-- `str(exc)`. -/
def PyErr.msg : PyErr → String
  | .httpError m => m
  | .exception m => m
  | .systemExit m => m
  | .baseExc m => m

/-- Whether `except Exception` catches the raised object (`SystemExit`
and the other `BaseException`-only signals slip through). -/
def PyErr.isException : PyErr → Bool
  | .httpError _ => true
  | .exception _ => true
  | .systemExit _ => false
  | .baseExc _ => false

/-- Whether `except httpx.HTTPError` catches the raised object. -/
def PyErr.isHttpError : PyErr → Bool
  | .httpError _ => true
  | _ => false

/-- A tool descriptor from `session.list_tools()`: a name and an optional
description. -/
structure Tool where
  name : String
  description : Option String
deriving DecidableEq

/-- Python `x or y` on an optional string (`tool.description or fallback`):
the fallback is used when the attribute is `None` *or* the empty string. -/
def pyOrStr (o : Option String) (fallback : String) : String :=
  match o with
  | some s => if s = "" then fallback else s
  | none => fallback

/-- The external collaborators, modelled as oracles: `json.loads`
(returns the parsed value or the `JSONDecodeError` message), the MCP
session's `list_tools` / `call_tool`, the Ollama chat POST (the response
JSON after `raise_for_status`, or the raised error), and the health-check
GET (`response.json()` or the raised error).  The session oracle is
call-independent, matching the spec's stateless per-command contract. -/
structure World where
  loads : String → Except String Json
  listTools : Except PyErr (List Tool)
  callTool : String → Json → Except PyErr CallToolResult
  chatPost : String → Option String → Except PyErr Json
  health : Except PyErr Json

/-- `parse_json_arguments` (lines 91-97): `None` and the empty string give
the empty dict; otherwise the text goes to `json.loads`, whose parse
failure is converted into `SystemExit("Unable to parse JSON arguments:
<details>")`.  `SystemExit` derives from `BaseException`, not `Exception`. -/
def parse_json_arguments (loads : String → Except String Json)
    (raw : Option String) : Except PyErr Json :=
  match raw with
  | none => .ok (Json.obj [])
  | some s =>
      if s = "" then .ok (Json.obj [])
      else
        match loads s with
        | .ok v => .ok v
        | .error e => .error (.systemExit ("Unable to parse JSON arguments: " ++ e))

/-- The reply extraction of `OllamaClient.chat` (lines 57-61):
`data.get("message", {}).get("content")`, falling back to
`json.dumps(data, indent=2)` when that value is falsy, else returning the
stripped string.  Attribute errors (`data` not a dict, `message` not a
dict, a truthy non-string `content`) are modelled as a raised generic
`Exception`; CPython's exact `AttributeError` text is not reproduced, and
no claim inspects it. -/
def chatExtract (data : Json) : Except PyErr String :=
  match data with
  | .obj kvs =>
      let msg := (jsonLookup kvs "message").getD (Json.obj [])
      match msg with
      | .obj mkvs =>
          match jsonLookup mkvs "content" with
          | none => .ok (jsonDumps data)
          | some c =>
              if jsonTruthy c then
                match c with
                | .str s => .ok (pyStrip s)
                | _ => .error (.exception "AttributeError")
              else .ok (jsonDumps data)
      | _ => .error (.exception "AttributeError")
  | _ => .error (.exception "AttributeError")

/-- `OllamaClient.chat` (lines 44-61): POST the prompt (plus optional
system message), then extract the reply from the response JSON. -/
def ollamaChat (w : World) (prompt : String) (system : Option String) :
    Except PyErr String :=
  match w.chatPost prompt system with
  | .error e => .error e
  | .ok data => chatExtract data

/-- Python `"\n".join(lines)` (`os.linesep.join` on POSIX). -/
def pyJoinNl : List String → String
  | [] => ""
  | [a] => a
  | a :: as => a ++ "\n" ++ pyJoinNl as

/-- One line of the `plan` tool summary (line 231):
`f"- \x7bt.name\x7d: \x7bt.description or ''\x7d"`. -/
def planLine (t : Tool) : String :=
  "- " ++ t.name ++ ": " ++ pyOrStr t.description ""

/-- The fixed system instruction of `plan` (line 232). -/
def planSystemPrompt : String :=
  "You are helping an operator decide which Metasploit MCP tools to call."

/-- The `plan` prompt (lines 230-237): summary lines joined with
`os.linesep` (modelled `"\n"`), the literal `- none advertised` when the
join is empty, spliced into the (ineffective, see `C5`) `textwrap.dedent`
template, then the goal suffix appended after the dedent. -/
def buildPlanPrompt (ts : List Tool) (goal : String) : String :=
  let joined := pyJoinNl (ts.map planLine)
  let x := if joined = "" then "- none advertised" else joined
  pyDedent ("\n                    Available tools:\n" ++ x ++ "\n\n")
    ++ "Goal: " ++ goal ++ "\nSuggest concrete steps and relevant tool names."

/-- The raw triple-quoted help literal (lines 185-194), exactly as it
appears in the source (a leading newline, 24-space margin, 26-space
command entries, and a trailing 24-space line). -/
def helpSource : String :=
  "\n                        Commands:\n                          tools                Refresh and list advertised tools\n                          call <name> [json]   Invoke a tool with optional JSON args\n                          chat <message>       Send a free-form prompt to Ollama\n                          plan <goal>          Ask Ollama to draft a plan using known tools\n                          status               Hit the Metasploit MCP /healthz endpoint\n                          help                 Show this message\n                          exit                 Close the client\n                        "

/-- What `help` prints: `textwrap.dedent(...).strip()` of the literal. -/
def helpText : String := pyStrip (pyDedent helpSource)

/-- The usage hint printed when `call` has no tail (line 206). -/
def callUsage : String :=
  "Usage: call <tool_name> \x7b\"optional\": \"json\"\x7d"

/-- Outcome of dispatching one input line: the lines printed, and whether
the loop continues (`cont`), breaks cleanly (`term`), or an uncaught
exception escapes `_loop` (`fatal` — `with_mcp_session` then tears the
transport down and the process ends). -/
inductive Step where
  | cont : List String → Step
  | term : List String → Step
  | fatal : List String → PyErr → Step

/-- The printed lines of a step. -/
def Step.out : Step → List String
  | .cont o => o
  | .term o => o
  | .fatal o _ => o

/-- One iteration of the interactive loop body (lines 174-252), translated
branch by branch.  The input line is stripped; empty input loops; the verb
is the lower-cased text before the first space; then the dispatch table:
`quit`/`exit`, `help`, `tools` (uncaught `list_tools`), `call` (usage hint
for a missing tail, `parse_json_arguments` *outside* the `try`, then the
tool call under the broad `except Exception` guard), `chat` and `plan` and
`status` (each catching `httpx.HTTPError` only), and the unknown-verb
diagnostic. -/
def dispatch (w : World) (entry : String) : Step :=
  let command := pyStrip entry
  if command = "" then .cont []
  else
    let p := partitionSp command
    let verb := pyLower p.1
    let tail := p.2
    if verb = "quit" ∨ verb = "exit" then .term []
    else if verb = "help" then .cont [helpText]
    else if verb = "tools" then
      match w.listTools with
      | .ok ts =>
          .cont (ts.map (fun t =>
            "- " ++ t.name ++ ": " ++ pyOrStr t.description "(no description)"))
      | .error e => .fatal [] e
    else if verb = "call" then
      if tail = "" then .cont [callUsage]
      else
        let q := partitionSp tail
        let name := q.1
        let rawArgs := pyStrip q.2
        match parse_json_arguments w.loads
            (if rawArgs = "" then none else some rawArgs) with
        | .error e => .fatal [] e
        | .ok args =>
            match w.callTool name args with
            | .ok r => .cont [format_tool_result r]
            | .error e =>
                if e.isException then .cont ["Tool call failed: " ++ e.msg]
                else .fatal [] e
    else if verb = "chat" then
      if tail = "" then .cont ["Usage: chat <message>"]
      else
        match ollamaChat w tail none with
        | .ok reply => .cont [reply]
        | .error e =>
            if e.isHttpError then .cont ["Ollama request failed: " ++ e.msg]
            else .fatal [] e
    else if verb = "plan" then
      if tail = "" then .cont ["Usage: plan <goal description>"]
      else
        match w.listTools with
        | .error e => .fatal [] e
        | .ok ts =>
            match ollamaChat w (buildPlanPrompt ts tail) (some planSystemPrompt) with
            | .ok reply => .cont [reply]
            | .error e =>
                if e.isHttpError then .cont ["Ollama request failed: " ++ e.msg]
                else .fatal [] e
    else if verb = "status" then
      match w.health with
      | .ok j => .cont [jsonDumps j]
      | .error e =>
          if e.isHttpError then .cont ["Health check failed: " ++ e.msg]
          else .fatal [] e
    else .cont ["Unknown command: " ++ verb ++ ". Try \x27help\x27."]

/-- How an interactive session ends: end-of-input (the loop prints an
empty line and breaks), an operator `quit`/`exit`, or an uncaught
exception escaping the loop. -/
inductive LoopEnd where
  | eof : LoopEnd
  | quit : LoopEnd
  | fatal : PyErr → LoopEnd

/-- The interactive loop over a finite queue of input lines: every printed
line in order, and how the session ended.  Reaching the end of the queue
models `EOFError` / `KeyboardInterrupt` at the `input` call (lines
168-172): print an empty line and break. -/
def runLoop (w : World) : List String → List String × LoopEnd
  | [] => ([""], .eof)
  | entry :: rest =>
      match dispatch w entry with
      | .cont out =>
          let r := runLoop w rest
          (out ++ r.1, r.2)
      | .term out => (out, .quit)
      | .fatal out e => (out, .fatal e)

/-- The one-shot `call-tool` subcommand (lines 310-312 driving lines
138-143): `parse_json_arguments` runs before any network activity, so its
`SystemExit` aborts the process before the session is even opened;
otherwise the tool is invoked and the formatted result printed. -/
def call_tool_once (w : World) (name : String) (arguments : Option String) :
    Except PyErr String :=
  match parse_json_arguments w.loads arguments with
  | .error e => .error e
  | .ok args =>
      match w.callTool name args with
      | .ok r => .ok (format_tool_result r)
      | .error e => .error e

/-- Split a character list at the first occurrence of `ch`: the text
before it and — when found — the text after it (`str.find` + slicing /
`str.split(ch, 1)` in the source). -/
def splitOnceL (ch : Char) : List Char → List Char × Option (List Char)
  | [] => ([], none)
  | c :: r =>
      if c = ch then ([], some r)
      else
        let q := splitOnceL ch r
        (c :: q.1, q.2)

/-- `urllib.parse`'s `scheme_chars`: ASCII letters, digits, `+`, `-`, `.`. -/
def isSchemeChar (c : Char) : Bool :=
  c.isAlpha ∨ c.isDigit ∨ c = '+' ∨ c = '-' ∨ c = '.'

/-- The parts returned by `urllib.parse.urlsplit` (ignoring the derived
username/password/host/port accessors, which the client never touches). -/
structure SplitResult where
  scheme : List Char
  netloc : List Char
  path : List Char
  query : List Char
  fragment : List Char

/-- The scheme-extraction step of `urlsplit`: when a `:` is preceded by a
letter-led run of `scheme_chars`, the (lower-cased) scheme and the
remainder; otherwise no scheme and the URL unchanged. -/
def splitScheme (url : List Char) : List Char × List Char :=
  match splitOnceL ':' url with
  | (before, some rest) =>
      match before with
      | b :: bs =>
          if b.isAlpha ∧ bs.all isSchemeChar then ((b :: bs).map Char.toLower, rest)
          else ([], url)
      | [] => ([], url)
  | (_, none) => ([], url)

/-- The post-sanitization stage of `urlsplit`: scheme, netloc, fragment
and query extraction (see `urlsplitPy` for the whole picture). -/
def urlsplitCore (url₀ : List Char) : Except String SplitResult :=
  let sp := splitScheme url₀
  let scheme := sp.1
  match sp.2 with
  | '/' :: '/' :: rest =>
      let netloc := rest.takeWhile (fun c => ¬(c = '/' ∨ c = '?' ∨ c = '#'))
      let url₁ := rest.drop netloc.length
      if netloc.contains '[' ∨ netloc.contains ']' then .error "bracketed host"
      else if !netloc.all (fun c => c.toNat < 128) then .error "non-ascii netloc"
      else
        let f := splitOnceL '#' url₁
        let q := splitOnceL '?' f.1
        .ok ⟨scheme, netloc, q.1, (q.2).getD [], (f.2).getD []⟩
  | other =>
      let f := splitOnceL '#' other
      let q := splitOnceL '?' f.1
      .ok ⟨scheme, [], q.1, (q.2).getD [], (f.2).getD []⟩

/-- `urllib.parse.urlsplit(url)` on the modelled domain.  Follows CPython:
strip leading C0-control/space characters, delete every tab/CR/LF, take a
scheme when a `:` is preceded by a letter-led run of `scheme_chars`
(lower-casing it), take the netloc after `//` up to the next `/`, `?` or
`#`, then split off the fragment and the query.  The model returns
`.error` where CPython raises `ValueError` (mismatched brackets) and also
refuses — rather than mis-models — the two validations it does not carry
out: bracketed (IPv6) hosts and the NFKC check for non-ASCII netlocs.
Every theorem about URLs is conditioned on a successful split, so nothing
is claimed about the refused inputs. -/
def urlsplitPy (l : List Char) : Except String SplitResult :=
  let l₁ := l.dropWhile (fun c => c.toNat ≤ 32)
  let url₀ := l₁.filter (fun c => ¬(c = '\t' ∨ c = '\r' ∨ c = '\n'))
  urlsplitCore url₀

/-- `urllib.parse.uses_netloc`: the schemes for which `urlunsplit`
re-introduces a `//` even with an empty netloc. -/
def uses_netloc : List (List Char) :=
  ["", "ftp", "http", "gopher", "nntp", "telnet", "imap", "wais", "file",
   "mms", "https", "shttp", "snews", "prospero", "rtsp", "rtsps", "rtspu",
   "rsync", "svn", "svn+ssh", "sftp", "nfs", "git", "git+ssh", "ws",
   "wss"].map String.data

/-- `urllib.parse.urlunsplit` (CPython 3.11), translated clause by clause:
the `//` is emitted when the netloc is truthy, or when the scheme is
truthy, listed in `uses_netloc`, and the path does not already begin with
`//`. -/
def urlunsplitPy (scheme netloc path query fragment : List Char) : List Char :=
  let url :=
    if !netloc.isEmpty ∨
        (!scheme.isEmpty ∧ uses_netloc.contains scheme ∧ path.take 2 ≠ ['/', '/']) then
      let p := if !path.isEmpty ∧ path.head? ≠ some '/' then '/' :: path else path
      '/' :: '/' :: (netloc ++ p)
    else path
  let url := if !scheme.isEmpty then scheme ++ ':' :: url else url
  let url := if !query.isEmpty then url ++ '?' :: query else url
  if !fragment.isEmpty then url ++ '#' :: fragment else url

/-- `default_health_url` (lines 78-80): split the transport URL and
reassemble it with the path replaced by `/healthz` and the query and
fragment emptied.  `.error` propagates the model's parse refusal (where
CPython would raise or where the model declines, see `urlsplitPy`). -/
def default_health_url (mcp_url : String) : Except String String :=
  match urlsplitPy mcp_url.data with
  | .error e => .error e
  | .ok p =>
      .ok (String.mk (urlunsplitPy p.scheme p.netloc "/healthz".data [] []))

/-- Status line of the formatter, as the spec's rendering order names it. -/
def statusLine (r : CallToolResult) : String :=
  "status: " ++ (if r.isError then "error" else "ok")

/-- The `structured:` section, present exactly when the payload is truthy. -/
def structuredSection (r : CallToolResult) : List String :=
  if truthyDict r.structuredContent then
    ["structured:", pyIndent2 (jsonDumps (Json.obj (r.structuredContent.getD [])))]
  else []

/-- The `meta:` section, present exactly when the metadata is truthy. -/
def metaSection (r : CallToolResult) : List String :=
  if truthyDict r.meta then
    ["meta:", pyIndent2 (jsonDumps (Json.obj (r.meta.getD [])))]
  else []

/-- One rendered line per content block, in the order received. -/
def contentSections (r : CallToolResult) : List String :=
  r.content.map (fun b => pyIndent2 (jsonDumps b))

/-- A result whose structured payload is present but empty — the input
separating "present" from "truthy". -/
def emptyStructuredResult : CallToolResult :=
  { isError := false, structuredContent := some [], meta := none, content := [] }

/-- The abstract sections of one formatted tool result, used to state
that every populated field contributes exactly one section. -/
inductive ResultSection where
  | statusSec : Bool → ResultSection
  | structuredSec : List (String × Json) → ResultSection
  | metaSec : List (String × Json) → ResultSection
  | blockSec : Json → ResultSection

/-- The section list of a result, in the formatter's fixed order. -/
def sectionsOf (r : CallToolResult) : List ResultSection :=
  [ResultSection.statusSec r.isError]
    ++ (if truthyDict r.structuredContent then
          [ResultSection.structuredSec (r.structuredContent.getD [])] else [])
    ++ (if truthyDict r.meta then [ResultSection.metaSec (r.meta.getD [])] else [])
    ++ r.content.map ResultSection.blockSec

/-- Rendered text of one section. -/
def renderSection : ResultSection → List String
  | .statusSec b => ["status: " ++ (if b then "error" else "ok")]
  | .structuredSec kvs => ["structured:", pyIndent2 (jsonDumps (Json.obj kvs))]
  | .metaSec kvs => ["meta:", pyIndent2 (jsonDumps (Json.obj kvs))]
  | .blockSec b => [pyIndent2 (jsonDumps b)]

/-- Join rendered sections with newlines. -/
def joinSections (ss : List ResultSection) : String :=
  String.intercalate "\n" (ss.map renderSection).flatten

/-- Recognisers for the section kinds. -/
def ResultSection.isStatus : ResultSection → Bool
  | .statusSec _ => true
  | _ => false

/-- Recogniser for `structured:` sections. -/
def ResultSection.isStructured : ResultSection → Bool
  | .structuredSec _ => true
  | _ => false

/-- Recogniser for `meta:` sections. -/
def ResultSection.isMeta : ResultSection → Bool
  | .metaSec _ => true
  | _ => false

/-- Content block carried by a section, if any. -/
def ResultSection.getBlock : ResultSection → Option Json
  | .blockSec b => some b
  | _ => none

/-- A concrete environment for witnesses and counterexamples.  The
`loads` oracle answers exactly as `json.loads` does on the two argument
texts exercised: the object text parses and anything else fails with the
`Expecting value` diagnostic; the session knows one tool, `echo`, and
raises a plain `Exception` for every other name; the chat service always
answers with a `message.content` reply; the health endpoint returns
`{"ok": true}`. -/
def exWorld : World where
  loads := fun s =>
    if s = "\x7b\"x\": 1\x7d" then .ok (Json.obj [("x", Json.num 1)])
    else .error "Expecting value: line 1 column 1 (char 0)"
  listTools := .ok [⟨"echo", some "echo a payload"⟩]
  callTool := fun n _ =>
    if n = "echo" then .ok { content := [Json.obj [("text", Json.str "x=1")]] }
    else .error (.exception "Unknown tool: missing")
  chatPost := fun _ _ =>
    .ok (Json.obj [("message", Json.obj [("content", Json.str "plan text")])])
  health := .ok (Json.obj [("ok", Json.bool true)])

/-- A chat response whose `message.content` field is present but empty. -/
def emptyContentChat : Json :=
  Json.obj [("message", Json.obj [("content", Json.str "")])]

/-- The fixed replacement path of the health check. -/
def healthzPath : List Char := "/healthz".data

/-- The health-URL resolution of `build_config` (line 286):
`args.health_url or default_health_url(mcp_url)` — the explicit override
wins unless it is falsy (`None` or the empty string). -/
def build_config_health_url (override : Option String) (mcp_url : String) :
    Except String String :=
  match override with
  | some h => if h = "" then default_health_url mcp_url else .ok h
  | none => default_health_url mcp_url

/-- C3 counterexample.  The claim says the `structured:` section appears
whenever a structured payload is present and that nothing given to the
formatter is truncated; but `format_tool_result` tests Python truthiness,
so a present-but-empty payload (`structuredContent = {}`) renders exactly
like an absent one: the output is the lone status line, with no
`structured:` section and no trace of the given payload. -/
theorem format_drops_present_empty_structured :
    format_tool_result emptyStructuredResult = "status: ok"
      ∧ emptyStructuredResult.structuredContent.isSome = true :=
  ⟨rfl, rfl⟩

/-- C3 (amended: `present` must be read as present *and* non-empty, i.e.
Python-truthy).  For every tool call result the formatter emits exactly:
the status line (`error`/`ok`), then — when the structured payload is
present and non-empty — a `structured:` section with the payload
pretty-printed and indented, then — when the metadata is present and
non-empty — a `meta:` section likewise, then each content block
pretty-printed and indented in the order received, all joined by
newlines, with no reordering, deduplication or truncation of those
fields. -/
theorem format_tool_result_renders_in_fixed_order (r : CallToolResult) :
    format_tool_result r =
      String.intercalate "\n"
        ([statusLine r] ++ structuredSection r ++ metaSection r ++ contentSections r) := by
  cases h1 : truthyDict r.structuredContent <;>
    cases h2 : truthyDict r.meta <;>
      simp [format_tool_result, statusLine, structuredSection, metaSection,
        contentSections, h1, h2, List.append_assoc]

/-- Flattening a list of singleton lists is mapping. -/
theorem flatten_map_singleton {α β : Type} (f : α → β) (l : List α) :
    (l.map (fun a => [f a])).flatten = l.map f := by
  induction l with
  | nil => rfl
  | cons a t ih => simp [ih]

/-- C4.  The formatter is deterministic (it is a pure function of the
result value, so two formatting passes are byte-identical by definition)
and lossless in the claim's sense: the output is the newline-join of a
section list in which the status appears exactly once, the structured
payload contributes exactly one section when populated (truthy) and none
otherwise, likewise the metadata, and the content blocks appear exactly
as given, in order, with the fixed ordering status / structured / meta /
blocks. -/
theorem format_tool_result_lossless (r : CallToolResult) :
    format_tool_result r = joinSections (sectionsOf r)
      ∧ ((sectionsOf r).countP (fun s => s.isStatus)) = 1
      ∧ ((sectionsOf r).countP (fun s => s.isStructured))
          = (if truthyDict r.structuredContent then 1 else 0)
      ∧ ((sectionsOf r).countP (fun s => s.isMeta))
          = (if truthyDict r.meta then 1 else 0)
      ∧ (sectionsOf r).filterMap ResultSection.getBlock = r.content := by
  have hblocks : ∀ l : List Json,
      (List.map (renderSection ∘ ResultSection.blockSec) l).flatten
        = l.map (fun b => pyIndent2 (jsonDumps b)) := by
    intro l
    induction l with
    | nil => rfl
    | cons a t ih => simp [renderSection, ih]
  have hfil : ∀ l : List Json,
      List.filterMap (ResultSection.getBlock ∘ ResultSection.blockSec) l = l := by
    intro l
    induction l with
    | nil => rfl
    | cons a t ih => simp [List.filterMap_cons, ResultSection.getBlock, ih]
  refine ⟨?_, ?_, ?_, ?_, ?_⟩ <;>
    cases h1 : truthyDict r.structuredContent <;>
      cases h2 : truthyDict r.meta <;>
        simp [format_tool_result, joinSections, sectionsOf, renderSection, h1, h2,
          List.countP_append, List.countP_map, List.filterMap_map, List.filterMap_append,
          ResultSection.isStatus, ResultSection.isStructured, ResultSection.isMeta,
          List.countP_eq_zero, List.append_assoc, List.countP_cons,
          hblocks, hfil, List.filterMap_cons, ResultSection.getBlock]

/-- C9.  A present-but-empty structured payload (and likewise a
present-but-empty metadata dict) formats exactly like an absent one: the
optional sections are emitted only when the field is present and
non-empty. -/
theorem format_empty_fields_as_absent (e : Bool)
    (s m : Option (List (String × Json))) (c : List Json) :
    format_tool_result ⟨e, some [], m, c⟩ = format_tool_result ⟨e, none, m, c⟩
      ∧ format_tool_result ⟨e, s, some [], c⟩ = format_tool_result ⟨e, s, none, c⟩ := by
  constructor <;> simp [format_tool_result, truthyDict]

/-- A dispatched command that continues just prepends its output to the
rest of the run: the loop state is untouched by it. -/
theorem runLoop_cons_of_cont (w : World) (entry : String) (out : List String)
    (rest : List String) (h : dispatch w entry = .cont out) :
    runLoop w (entry :: rest) = (out ++ (runLoop w rest).1, (runLoop w rest).2) := by
  simp [runLoop, h]

/-- C7.  Any non-empty input line whose (lower-cased) verb is none of the
eight dispatch-table entries makes the dispatcher print exactly
`Unknown command: <verb>. Try 'help'.` — with the verb as the dispatcher
normalised it, lower-cased — and return to Waiting-for-input. -/
theorem unknown_verb_prints_diagnostic (w : World) (entry v tl : String)
    (h0 : pyStrip entry ≠ "")
    (h1 : partitionSp (pyStrip entry) = (v, tl))
    (h2 : pyLower v ∉ (["quit", "exit", "help", "tools", "call", "chat", "plan",
      "status"] : List String)) :
    dispatch w entry
      = .cont ["Unknown command: " ++ pyLower v ++ ". Try \x27help\x27."] := by
  simp only [List.mem_cons, List.mem_singleton, not_or] at h2
  obtain ⟨hq, he, hh, ht, hc, hch, hp, hs⟩ := h2
  simp [dispatch, h0, h1, hq, he, hh, ht, hc, hch, hp, hs]

/-- C7 witness: the (mixed-case) verb `FROBnicate` is not a command. -/
theorem unknown_verb_prints_diagnostic_witness :
    dispatch exWorld "FROBnicate the target"
      = .cont ["Unknown command: frobnicate. Try \x27help\x27."] := by
  have h := unknown_verb_prints_diagnostic exWorld "FROBnicate the target"
    "FROBnicate" "the target" (by decide) rfl (by decide)
  simpa using h

/-- C2.  When the tool invocation inside the interactive `call` command
raises any failure — any `Exception`, the class `except Exception`
catches; per the spec's own taxonomy the `BaseException`-only operator
signals (`KeyboardInterrupt`, `SystemExit`) are termination, not
failures — the dispatcher prints exactly `Tool call failed: <message>`
and returns to Waiting-for-input, and the rest of the session proceeds
exactly as if the failed command had never been entered (so a subsequent
valid command succeeds unchanged). -/
theorem tool_call_failure_is_isolated (w : World) (entry v tl name raw : String)
    (args : Json) (e : PyErr)
    (h0 : pyStrip entry ≠ "")
    (h1 : partitionSp (pyStrip entry) = (v, tl))
    (hv : pyLower v = "call")
    (ht : tl ≠ "")
    (h2 : partitionSp tl = (name, raw))
    (hargs : parse_json_arguments w.loads
      (if pyStrip raw = "" then none else some (pyStrip raw)) = .ok args)
    (herr : w.callTool name args = .error e)
    (hexc : e.isException = true) :
    dispatch w entry = .cont ["Tool call failed: " ++ e.msg]
      ∧ ∀ rest, runLoop w (entry :: rest)
          = (("Tool call failed: " ++ e.msg) :: (runLoop w rest).1,
             (runLoop w rest).2) := by
  have hd : dispatch w entry = .cont ["Tool call failed: " ++ e.msg] := by
    simp [dispatch, h0, h1, hv, ht, h2, hargs, herr, hexc]
  exact ⟨hd, fun rest => by simp [runLoop, hd]⟩

/-- C2 witness: calling the unknown tool `missing` raises, the diagnostic
is printed, and the queued `status` command still runs and succeeds. -/
theorem tool_call_failure_is_isolated_witness :
    dispatch exWorld "call missing \x7b\"x\": 1\x7d"
        = .cont ["Tool call failed: Unknown tool: missing"]
      ∧ runLoop exWorld ["call missing \x7b\"x\": 1\x7d", "status"]
        = ("Tool call failed: Unknown tool: missing"
            :: (runLoop exWorld ["status"]).1,
           (runLoop exWorld ["status"]).2) := by
  have h := tool_call_failure_is_isolated exWorld "call missing \x7b\"x\": 1\x7d"
    "call" "missing \x7b\"x\": 1\x7d" "missing" "\x7b\"x\": 1\x7d"
    (Json.obj [("x", Json.num 1)]) (.exception "Unknown tool: missing")
    (by decide) rfl rfl (by decide) rfl rfl rfl rfl
  exact ⟨h.1, h.2 ["status"]⟩

/-- C1 counterexample.  In the interactive loop, `call` with malformed
JSON arguments does *not* print a usage hint and continue: the argument
text is parsed by `parse_json_arguments` *before* the `try` block (line
209), and that helper raises `SystemExit` — which `except Exception`
could not catch anyway.  The exception escapes the loop: here the
dispatcher goes fatal with nothing printed, and a queued follow-up
command (`tools`) is never processed — the session is torn down. -/
theorem interactive_bad_json_is_fatal :
    dispatch exWorld "call echo nonsense"
        = .fatal [] (.systemExit
            "Unable to parse JSON arguments: Expecting value: line 1 column 1 (char 0)")
      ∧ runLoop exWorld ["call echo nonsense", "tools"]
        = ([], .fatal (.systemExit
            "Unable to parse JSON arguments: Expecting value: line 1 column 1 (char 0)")) :=
  ⟨rfl, rfl⟩

/-- C1 (amended).  An argument-parse failure for `call` is a hard stop in
*both* invocation modes: the shared parser raises
`SystemExit("Unable to parse JSON arguments: <details>")`, which in
one-shot mode aborts before any tool call and in the interactive loop
escapes the dispatcher uncaught (it runs before the `try` and is not an
`Exception`), ending the session; the interactive usage hint exists only
for a `call` with no tool name at all. -/
theorem bad_json_hard_stop_in_both_modes (w : World) (entry v tl name raw emsg : String)
    (h0 : pyStrip entry ≠ "")
    (h1 : partitionSp (pyStrip entry) = (v, tl))
    (hv : pyLower v = "call")
    (ht : tl ≠ "")
    (h2 : partitionSp tl = (name, raw))
    (hs : pyStrip raw ≠ "")
    (hl : w.loads (pyStrip raw) = .error emsg) :
    dispatch w entry
        = .fatal [] (.systemExit ("Unable to parse JSON arguments: " ++ emsg))
      ∧ (∀ rest, runLoop w (entry :: rest)
          = ([], .fatal (.systemExit ("Unable to parse JSON arguments: " ++ emsg))))
      ∧ call_tool_once w name (some (pyStrip raw))
        = .error (.systemExit ("Unable to parse JSON arguments: " ++ emsg)) := by
  have hd : dispatch w entry
      = .fatal [] (.systemExit ("Unable to parse JSON arguments: " ++ emsg)) := by
    simp [dispatch, h0, h1, hv, ht, h2, hs, hl, parse_json_arguments]
  refine ⟨hd, fun rest => by simp [runLoop, hd], ?_⟩
  simp [call_tool_once, parse_json_arguments, hs, hl]

/-- C1 amended-claim witness at the concrete malformed text `nonsense`. -/
theorem bad_json_hard_stop_witness :
    dispatch exWorld "call echo nonsense"
        = .fatal [] (.systemExit
            "Unable to parse JSON arguments: Expecting value: line 1 column 1 (char 0)")
      ∧ call_tool_once exWorld "echo" (some "nonsense")
        = .error (.systemExit
            "Unable to parse JSON arguments: Expecting value: line 1 column 1 (char 0)") := by
  have h := bad_json_hard_stop_in_both_modes exWorld "call echo nonsense"
    "call" "echo nonsense" "echo" "nonsense"
    "Expecting value: line 1 column 1 (char 0)"
    (by decide) rfl rfl (by decide) rfl (by decide) rfl
  exact ⟨h.1, by simpa using h.2.2⟩

/-- C10.  The tool-call argument parsing returns the empty mapping for a
missing argument (`None`), for an empty string, and — at the interactive
call site, which strips the raw text before the `or None` — for a
whitespace-only string; any other text yields exactly the JSON value it
parses to, mapping or not, and that value is handed to the tool
invocation unchecked (the `call` dispatch invokes the tool with it and
prints the formatted result). -/
theorem call_arguments_parse_behavior (w : World) (entry v tl name raw : String)
    (vjson : Json) (res : CallToolResult)
    (h0 : pyStrip entry ≠ "")
    (h1 : partitionSp (pyStrip entry) = (v, tl))
    (hv : pyLower v = "call")
    (ht : tl ≠ "")
    (h2 : partitionSp tl = (name, raw))
    (hne : pyStrip raw ≠ "")
    (hl : w.loads (pyStrip raw) = .ok vjson)
    (hc : w.callTool name vjson = .ok res) :
    parse_json_arguments w.loads none = .ok (Json.obj [])
      ∧ parse_json_arguments w.loads (some "") = .ok (Json.obj [])
      ∧ (∀ s : String, pyStrip s = "" →
          parse_json_arguments w.loads
            (if pyStrip s = "" then none else some (pyStrip s)) = .ok (Json.obj []))
      ∧ parse_json_arguments w.loads
          (if pyStrip raw = "" then none else some (pyStrip raw)) = .ok vjson
      ∧ dispatch w entry = .cont [format_tool_result res] := by
  have hp : parse_json_arguments w.loads
      (if pyStrip raw = "" then none else some (pyStrip raw)) = .ok vjson := by
    simp [parse_json_arguments, hne, hl]
  refine ⟨rfl, rfl, ?_, hp, ?_⟩
  · intro s hsz
    simp [parse_json_arguments, hsz]
  · simp [dispatch, h0, h1, hv, ht, h2, hp, hc]

/-- C10 witness: `call echo` with the non-empty object text, plus the
whitespace-only and missing cases, all at one concrete instance. -/
theorem call_arguments_parse_behavior_witness :
    parse_json_arguments exWorld.loads none = .ok (Json.obj [])
      ∧ parse_json_arguments exWorld.loads (some "") = .ok (Json.obj [])
      ∧ dispatch exWorld "call echo \x7b\"x\": 1\x7d"
        = .cont [format_tool_result
            { content := [Json.obj [("text", Json.str "x=1")]] }] := by
  have h := call_arguments_parse_behavior exWorld "call echo \x7b\"x\": 1\x7d"
    "call" "echo \x7b\"x\": 1\x7d" "echo" "\x7b\"x\": 1\x7d"
    (Json.obj [("x", Json.num 1)])
    { content := [Json.obj [("text", Json.str "x=1")]] }
    (by decide) rfl rfl (by decide) rfl (by decide) rfl rfl
  exact ⟨h.1, h.2.1, h.2.2.2.2⟩

/-- C6 counterexample.  A chat response whose `message.content` field is
*present* but empty does not come back as the reply text: `if not
message:` is a truthiness test, so the client falls back to the
pretty-printed raw body even though the field is present. -/
theorem chat_empty_content_falls_back :
    chatExtract emptyContentChat = .ok (jsonDumps emptyContentChat)
      ∧ jsonDumps emptyContentChat
        = "\x7b\n  \"message\": \x7b\n    \"content\": \"\"\n  \x7d\n\x7d"
      ∧ jsonLookup [("content", Json.str "")] "content" = some (Json.str "") :=
  ⟨rfl, rfl, rfl⟩

/-- C6 (amended).  For well-typed chat responses (a JSON object whose
`message` member, when present, is an object whose `content` member, when
present, is a string or null): a present non-empty `content` string is
returned as the reply *stripped of surrounding whitespace*; an absent,
null or empty `content` — and an absent `message` — falls back to the raw
response body pretty-printed exactly (`json.dumps(data, indent=2)`). -/
theorem chat_reply_extraction (kvs mkvs : List (String × Json)) :
    (jsonLookup kvs "message" = none →
        chatExtract (Json.obj kvs) = .ok (jsonDumps (Json.obj kvs)))
      ∧ (jsonLookup kvs "message" = some (Json.obj mkvs) →
          (jsonLookup mkvs "content" = none →
              chatExtract (Json.obj kvs) = .ok (jsonDumps (Json.obj kvs)))
            ∧ (jsonLookup mkvs "content" = some Json.null →
              chatExtract (Json.obj kvs) = .ok (jsonDumps (Json.obj kvs)))
            ∧ (jsonLookup mkvs "content" = some (Json.str "") →
              chatExtract (Json.obj kvs) = .ok (jsonDumps (Json.obj kvs)))
            ∧ (∀ s : String, s ≠ "" → jsonLookup mkvs "content" = some (Json.str s) →
              chatExtract (Json.obj kvs) = .ok (pyStrip s))) := by
  constructor
  · intro hm
    simp only [chatExtract, hm]
    rfl
  · intro hm
    refine ⟨?_, ?_, ?_, ?_⟩
    · intro hc; simp [chatExtract, hm, hc]
    · intro hc; simp [chatExtract, hm, hc, jsonTruthy]
    · intro hc; simp [chatExtract, hm, hc, jsonTruthy]
    · intro s hs hc; simp [chatExtract, hm, hc, jsonTruthy, hs]

/-- C6 amended-claim witness: `content = "  hi  "` comes back stripped to
`hi`; an absent `message` falls back to the raw pretty-printed body. -/
theorem chat_reply_extraction_witness :
    chatExtract (Json.obj [("message", Json.obj [("content", Json.str "  hi  ")])])
        = .ok "hi"
      ∧ chatExtract (Json.obj [("other", Json.num 1)])
        = .ok "\x7b\n  \"other\": 1\n\x7d" := by
  have h := chat_reply_extraction
    [("message", Json.obj [("content", Json.str "  hi  ")])]
    [("content", Json.str "  hi  ")]
  have h2 := chat_reply_extraction [("other", Json.num 1)] []
  constructor
  · have := (h.2 rfl).2.2.2 "  hi  " (by decide) rfl
    simpa using this
  · have := h2.1 rfl
    simpa using this

/-- `splitNl` always yields at least one line. -/
theorem splitNl_ne_nil (l : List Char) : splitNl l ≠ [] := by
  cases l with
  | nil => simp [splitNl]
  | cons c r =>
      simp only [splitNl]
      split
      · simp
      · split <;> simp

/-- Prepending a non-newline character extends the first line. -/
theorem splitNl_cons_ne (c : Char) (r : List Char) (hc : c ≠ '\n') :
    ∃ hd tl, splitNl r = hd :: tl ∧ splitNl (c :: r) = (c :: hd) :: tl := by
  cases hsp : splitNl r with
  | nil => exact absurd hsp (splitNl_ne_nil r)
  | cons hd tl => exact ⟨hd, tl, rfl, by simp [splitNl, hc, hsp]⟩

/-- Splitting around an explicit newline after a newline-free prefix. -/
theorem splitNl_append_nl (a b : List Char) (h : '\n' ∉ a) :
    splitNl (a ++ '\n' :: b) = a :: splitNl b := by
  induction a with
  | nil => simp [splitNl]
  | cons c r ih =>
      have hc : c ≠ '\n' := by
        intro e
        exact h (by simp [e])
      have h' : ('\n' : Char) ∉ r := fun m => h (List.mem_cons_of_mem _ m)
      simp [splitNl, hc, ih h']

/-- A trailing newline contributes one trailing empty line. -/
theorem splitNl_append_last (x : List Char) :
    splitNl (x ++ ['\n']) = splitNl x ++ [[]] := by
  induction x with
  | nil => simp [splitNl]
  | cons c r ih =>
      by_cases hc : c = '\n'
      · subst hc
        simp [splitNl, ih]
      · cases hsp : splitNl r with
        | nil => exact absurd hsp (splitNl_ne_nil r)
        | cons hd tl => simp [splitNl, hc, ih, hsp]

/-- Joining after extending the first line. -/
theorem joinNl_cons_head (c : Char) (hd : List Char) (tl : List (List Char)) :
    joinNl ((c :: hd) :: tl) = c :: joinNl (hd :: tl) := by
  cases tl <;> simp [joinNl]

/-- `joinNl` undoes `splitNl`. -/
theorem joinNl_splitNl (l : List Char) : joinNl (splitNl l) = l := by
  induction l with
  | nil => rfl
  | cons c r ih =>
      by_cases hc : c = '\n'
      · subst hc
        have h1 : splitNl ('\n' :: r) = [] :: splitNl r := by simp [splitNl]
        rw [h1]
        cases hsp : splitNl r with
        | nil => exact absurd hsp (splitNl_ne_nil r)
        | cons hd tl =>
            rw [hsp] at ih
            show joinNl ([] :: hd :: tl) = '\n' :: r
            simpa [joinNl] using ih
      · obtain ⟨hd, tl, hr, he⟩ := splitNl_cons_ne c r hc
        rw [he, joinNl_cons_head, ← hr, ih]

/-- Once the margin scan has reached the empty margin it stays there. -/
theorem dedentStep_absorb (ls : List (List Char)) :
    ls.foldl dedentStep (some []) = some [] := by
  induction ls with
  | nil => rfl
  | cons a t ih =>
      have hstep : dedentStep (some []) a = some [] := by
        unfold dedentStep
        split <;> rfl
      simpa [List.foldl_cons, hstep] using ih

/-- The common prefix with an empty run is empty. -/
theorem lcp_nil_right (m : List Char) : lcp m [] = [] := by
  cases m <;> rfl

/-- `textwrap.dedent` is the identity on the `plan` template once the
interpolated tool summary is in place: the template's only whitespace-led
content line shares no margin with the `- `-led summary lines, so the
computed margin is empty, and (given no whitespace-only summary lines)
the blanking pass changes nothing either. -/
theorem pyDedentL_header_dash (A x hd0 : List Char) (tl0 : List (List Char))
    (hA : ('\n' : Char) ∉ A)
    (hAc : A.any (fun c => !(c = ' ' ∨ c = '\t')) = true)
    (hAws : wsOnlyLine A = false)
    (hx : splitNl x = ('-' :: hd0) :: tl0)
    (H : ∀ l ∈ splitNl x, wsOnlyLine l = false) :
    pyDedentL ('\n' :: (A ++ '\n' :: (x ++ ['\n', '\n'])))
      = '\n' :: (A ++ '\n' :: (x ++ ['\n', '\n'])) := by
  have hsplit : splitNl ('\n' :: (A ++ '\n' :: (x ++ ['\n', '\n'])))
      = [] :: A :: (splitNl x ++ [[], []]) := by
    have h1 : splitNl ('\n' :: (A ++ '\n' :: (x ++ ['\n', '\n'])))
        = [] :: splitNl (A ++ '\n' :: (x ++ ['\n', '\n'])) := by
      simp [splitNl]
    rw [h1, splitNl_append_nl _ _ hA]
    have h2 : x ++ ['\n', '\n'] = (x ++ ['\n']) ++ ['\n'] := by simp
    rw [h2, splitNl_append_last, splitNl_append_last]
    simp
  have hall : ∀ ln ∈ ([] :: A :: (splitNl x ++ [[], []])),
      (if wsOnlyLine ln then [] else ln) = ln := by
    intro ln hln
    rcases List.mem_cons.1 hln with h | hln
    · subst h; rfl
    rcases List.mem_cons.1 hln with h | hln
    · subst h; simp [hAws]
    rcases List.mem_append.1 hln with h | h
    · simp [H ln h]
    · have : ln = [] := by
        simp only [List.mem_cons, List.mem_singleton] at h
        rcases h with h | h
        · exact h
        · simpa using h
      subst this; rfl
  have hblank :
      ((splitNl ('\n' :: (A ++ '\n' :: (x ++ ['\n', '\n'])))).map
          (fun ln => if wsOnlyLine ln then [] else ln))
        = splitNl ('\n' :: (A ++ '\n' :: (x ++ ['\n', '\n']))) := by
    rw [hsplit]
    calc ([] :: A :: (splitNl x ++ [[], []])).map
            (fun ln => if wsOnlyLine ln then [] else ln)
        = ([] :: A :: (splitNl x ++ [[], []])).map id := List.map_congr_left hall
      _ = _ := List.map_id _
  have hstep2 : dedentStep (dedentStep none A) ('-' :: hd0) = some [] := by
    have hA1 : dedentStep none A = some (leadingWs A) := by
      simp only [dedentStep, hAc, if_true]
    have hdash : (!decide (('-' : Char) = ' ' ∨ ('-' : Char) = '\t')) = true := by
      decide
    have hany : (('-' :: hd0).any (fun c => !(c = ' ' ∨ c = '\t'))) = true := by
      simp only [List.any_cons, hdash, Bool.true_or]
    rw [hA1]
    simp only [dedentStep, hany, if_true]
    have hlead : leadingWs ('-' :: hd0) = [] := by
      simp [leadingWs, List.takeWhile_cons]
    rw [hlead, lcp_nil_right]
  have hmargin : dedentMargin (splitNl ('\n' :: (A ++ '\n' :: (x ++ ['\n', '\n']))))
      = some [] := by
    rw [hsplit, hx]
    show List.foldl dedentStep none
        ([] :: A :: ((('-' :: hd0) :: tl0) ++ [[], []])) = some []
    simp only [List.cons_append, List.foldl_cons]
    have h0 : dedentStep none [] = none := rfl
    rw [h0, hstep2]
    exact dedentStep_absorb _
  simp only [pyDedentL]
  rw [hblank, hmargin]
  simp [joinNl_splitNl]

/-- The characters of a rendered summary line: `- name: description`. -/
theorem planLine_data (t : Tool) :
    (planLine t).data
      = '-' :: ' ' :: (t.name.data ++ (':' :: ' ' :: (pyOrStr t.description "").data)) := by
  simp only [planLine, String.data_append]
  simp [List.append_assoc]

/-- A join starts with the characters of its first element. -/
theorem pyJoinNl_cons_data (a : String) (as : List String) :
    ∃ r, (pyJoinNl (a :: as)).data = a.data ++ r := by
  cases as with
  | nil => exact ⟨[], by simp [pyJoinNl]⟩
  | cons b t =>
      refine ⟨'\n' :: (pyJoinNl (b :: t)).data, ?_⟩
      show ((a ++ "\n") ++ pyJoinNl (b :: t)).data = _
      rw [String.data_append, String.data_append]
      simp

/-- C5 (amended: the render-and-join construction holds exactly when the
rendered tool summary contains no whitespace-only lines; as the
counterexample shows, `textwrap.dedent` blanks any whitespace-only line a
description contributes, so the claim does not hold verbatim for such
descriptions).  Under that proviso the `plan` prompt renders every
advertised tool as `- name: description` with a missing (or empty)
description rendered as the empty string — not the `(no description)`
placeholder `tools` uses — joins the lines with newlines, substitutes the
fixed sentinel line `- none advertised` when the tool list is empty, and
splices the result between the fixed header and the goal suffix; the
wrapping `textwrap.dedent` is then provably the identity (the margin is
empty because the summary lines start at column 0, which is also why the
header keeps its 20-space indentation). -/
theorem plan_prompt_built_as_specified (ts : List Tool) (goal : String)
    (H : ∀ l ∈ splitNl (pyJoinNl (ts.map planLine)).data, wsOnlyLine l = false) :
    (∀ t : Tool, planLine t = "- " ++ t.name ++ ": " ++ t.description.getD "")
      ∧ buildPlanPrompt ts goal
        = "\n                    Available tools:\n"
            ++ (if ts = [] then "- none advertised" else pyJoinNl (ts.map planLine))
            ++ "\n\n" ++ "Goal: " ++ goal
            ++ "\nSuggest concrete steps and relevant tool names." := by
  constructor
  · intro t
    cases hd : t.description with
    | none => simp [planLine, pyOrStr, hd]
    | some s => by_cases hs : s = "" <;> simp [planLine, pyOrStr, hd, hs]
  · cases ts with
    | nil =>
        have hded : pyDedent "\n                    Available tools:\n- none advertised\n\n"
            = "\n                    Available tools:\n- none advertised\n\n" := by decide
        simp only [buildPlanPrompt, pyJoinNl, List.map_nil, if_pos rfl]
        simp [hded, String.append_assoc]
    | cons t ts' =>
        obtain ⟨r₀, hr₀⟩ := pyJoinNl_cons_data (planLine t) (ts'.map planLine)
        have hXdata : (pyJoinNl ((t :: ts').map planLine)).data
            = '-' :: (' ' :: (t.name.data
                ++ (':' :: ' ' :: (pyOrStr t.description "").data)) ++ r₀) := by
          rw [List.map_cons, hr₀, planLine_data]
          simp
        have hne : pyJoinNl ((t :: ts').map planLine) ≠ "" := by
          intro h
          rw [h] at hXdata
          simp at hXdata
        obtain ⟨hd1, tl1, _, hsp⟩ := splitNl_cons_ne '-'
          (' ' :: (t.name.data ++ (':' :: ' ' :: (pyOrStr t.description "").data)) ++ r₀)
          (by decide)
        have hsplitx : splitNl (pyJoinNl ((t :: ts').map planLine)).data
            = ('-' :: hd1) :: tl1 := by
          rw [hXdata, hsp]
        have hded := pyDedentL_header_dash
          "                    Available tools:".data
          (pyJoinNl ((t :: ts').map planLine)).data hd1 tl1
          (by decide) (by decide) (by decide) hsplitx H
        have hsd : ("\n                    Available tools:\n"
              ++ pyJoinNl ((t :: ts').map planLine) ++ "\n\n").data
            = '\n' :: ("                    Available tools:".data
                ++ '\n' :: ((pyJoinNl ((t :: ts').map planLine)).data ++ ['\n', '\n'])) := by
          rw [String.data_append, String.data_append]
          rw [show ("\n                    Available tools:\n" : String).data
              = '\n' :: ("                    Available tools:".data ++ ['\n']) from rfl,
            show ("\n\n" : String).data = ['\n', '\n'] from rfl]
          simp
        have hdedS : pyDedent ("\n                    Available tools:\n"
              ++ pyJoinNl ((t :: ts').map planLine) ++ "\n\n")
            = "\n                    Available tools:\n"
              ++ pyJoinNl ((t :: ts').map planLine) ++ "\n\n" := by
          show String.mk (pyDedentL _) = _
          rw [hsd, hded, ← hsd]
        simp only [buildPlanPrompt, hne, if_neg, ite_false, hdedS]
        simp [String.append_assoc]

/-- C5 witness: two tools (one without a description) and the empty tool
list, at a concrete goal. -/
theorem plan_prompt_built_as_specified_witness :
    planLine ⟨"scan", none⟩ = "- scan: "
      ∧ buildPlanPrompt [⟨"exploit", some "run an exploit"⟩, ⟨"scan", none⟩] "pwn"
        = "\n                    Available tools:\n- exploit: run an exploit\n- scan: \n\nGoal: pwn\nSuggest concrete steps and relevant tool names."
      ∧ buildPlanPrompt [] "pwn"
        = "\n                    Available tools:\n- none advertised\n\nGoal: pwn\nSuggest concrete steps and relevant tool names." := by
  have h1 := plan_prompt_built_as_specified
    [⟨"exploit", some "run an exploit"⟩, ⟨"scan", none⟩] "pwn" (by decide)
  have h2 := plan_prompt_built_as_specified ([] : List Tool) "pwn" (by decide)
  refine ⟨?_, ?_, ?_⟩
  · rw [h1.1 ⟨"scan", none⟩]
    rfl
  · rw [h1.2]
    rfl
  · rw [h2.2]
    rfl

/-- `UInt32` order reflects the natural-number order of the code units. -/
theorem uint32_le_iff (a b : UInt32) : a ≤ b ↔ a.toNat ≤ b.toNat := by
  rw [UInt32.le_def, BitVec.le_def]
  exact Iff.rfl

theorem char_isUpper_iff (c : Char) : c.isUpper = true ↔ 65 ≤ c.toNat ∧ c.toNat ≤ 90 := by
  simp only [Char.isUpper, Bool.and_eq_true, decide_eq_true_eq, ge_iff_le]
  rw [uint32_le_iff, uint32_le_iff]
  exact Iff.rfl

theorem char_isLower_iff (c : Char) : c.isLower = true ↔ 97 ≤ c.toNat ∧ c.toNat ≤ 122 := by
  simp only [Char.isLower, Bool.and_eq_true, decide_eq_true_eq, ge_iff_le]
  rw [uint32_le_iff, uint32_le_iff]
  exact Iff.rfl

theorem char_isAlpha_iff (c : Char) :
    c.isAlpha = true ↔ (65 ≤ c.toNat ∧ c.toNat ≤ 90) ∨ (97 ≤ c.toNat ∧ c.toNat ≤ 122) := by
  simp only [Char.isAlpha, Bool.or_eq_true, char_isUpper_iff, char_isLower_iff]

theorem char_toNat_ofNat_valid (n : Nat) (h : n < 55296) : (Char.ofNat n).toNat = n := by
  have hv : n.isValidChar := Or.inl h
  simp [Char.ofNat, hv, Char.ofNatAux, Char.toNat]
  rfl

theorem toLower_of_upper (c : Char) (h1 : 65 ≤ c.toNat) (h2 : c.toNat ≤ 90) :
    (Char.toLower c).toNat = c.toNat + 32 := by
  unfold Char.toLower
  rw [if_pos ⟨h1, h2⟩]
  exact char_toNat_ofNat_valid _ (by omega)

theorem toLower_of_not_upper (c : Char) (h : ¬(65 ≤ c.toNat ∧ c.toNat ≤ 90)) :
    Char.toLower c = c := by
  unfold Char.toLower
  rw [if_neg h]

theorem isAlpha_toLower (c : Char) (h : c.isAlpha = true) :
    (Char.toLower c).isAlpha = true := by
  by_cases hu : 65 ≤ c.toNat ∧ c.toNat ≤ 90
  · have := toLower_of_upper c hu.1 hu.2
    rw [char_isAlpha_iff]
    right
    omega
  · rw [toLower_of_not_upper c hu]
    exact h

theorem toLower_idem (c : Char) : Char.toLower (Char.toLower c) = Char.toLower c := by
  by_cases hu : 65 ≤ c.toNat ∧ c.toNat ≤ 90
  · have h := toLower_of_upper c hu.1 hu.2
    apply toLower_of_not_upper
    omega
  · rw [toLower_of_not_upper c hu, toLower_of_not_upper c hu]

theorem isSchemeChar_toLower (c : Char) (h : isSchemeChar c = true) :
    isSchemeChar (Char.toLower c) = true := by
  by_cases hu : 65 ≤ c.toNat ∧ c.toNat ≤ 90
  · have hl := toLower_of_upper c hu.1 hu.2
    have ha : (Char.toLower c).isAlpha = true := by
      rw [char_isAlpha_iff]
      right
      omega
    simp [isSchemeChar, ha]
  · rw [toLower_of_not_upper c hu]
    exact h

theorem alpha_gt_32 (c : Char) (h : c.isAlpha = true) : 32 < c.toNat := by
  rw [char_isAlpha_iff] at h
  omega

theorem splitOnce_not_mem (ch : Char) (l : List Char) (h : ch ∉ l) :
    splitOnceL ch l = (l, none) := by
  induction l with
  | nil => rfl
  | cons c r ih =>
      have hc : c ≠ ch := fun e => h (by simp [e])
      have h' : ch ∉ r := fun m => h (List.mem_cons_of_mem _ m)
      simp [splitOnceL, hc, ih h']

theorem splitOnce_append (ch : Char) (a b : List Char) (h : ch ∉ a) :
    splitOnceL ch (a ++ ch :: b) = (a, some b) := by
  induction a with
  | nil => simp [splitOnceL]
  | cons c r ih =>
      have hc : c ≠ ch := fun e => h (by simp [e])
      have h' : ch ∉ r := fun m => h (List.mem_cons_of_mem _ m)
      simp [splitOnceL, hc, ih h']

theorem splitOnce_snd_mem (ch : Char) (l a b : List Char)
    (h : splitOnceL ch l = (a, some b)) : ∀ c ∈ b, c ∈ l := by
  induction l generalizing a with
  | nil => simp [splitOnceL] at h
  | cons c r ih =>
      by_cases hc : c = ch
      · subst hc
        simp [splitOnceL] at h
        intro x hx
        rw [h.2]
        exact List.mem_cons_of_mem _ hx
      · simp only [splitOnceL, hc, if_neg, ite_false] at h
        have h2 : splitOnceL ch r = ((splitOnceL ch r).1, some b) := by
          rcases hq : splitOnceL ch r with ⟨q1, q2⟩
          rw [hq] at h
          simp at h
          simp [h.2]
        intro x hx
        exact List.mem_cons_of_mem _ (ih _ h2 x hx)

theorem takeWhile_append_stop (p : Char → Bool) (a : List Char) (b0 : Char)
    (b' : List Char) (ha : ∀ c ∈ a, p c = true) (hb : p b0 = false) :
    (a ++ b0 :: b').takeWhile p = a := by
  induction a with
  | nil => simp [List.takeWhile_cons, hb]
  | cons c r ih =>
      have hc : p c = true := ha c (by simp)
      have hr : ∀ c ∈ r, p c = true := fun c m => ha c (List.mem_cons_of_mem _ m)
      simp [List.takeWhile_cons, hc, ih hr]

theorem splitScheme_fst_inv (l : List Char) :
    (splitScheme l).1 = []
      ∨ ∃ (b : Char) (bs : List Char),
          (splitScheme l).1 = Char.toLower b :: bs.map Char.toLower
            ∧ b.isAlpha = true ∧ bs.all isSchemeChar = true := by
  unfold splitScheme
  rcases hs : splitOnceL ':' l with ⟨before, rest?⟩
  cases rest? with
  | none => left; rfl
  | some rest =>
      cases before with
      | nil => left; rfl
      | cons b bs =>
          by_cases hg : b.isAlpha = true ∧ bs.all isSchemeChar = true
          · right
            refine ⟨b, bs, ?_, hg.1, hg.2⟩
            simp [hg.1, hg.2]
          · left
            have h2 : ¬(b.isAlpha = true ∧ ∀ x ∈ bs, isSchemeChar x = true) := by
              simpa using hg
            simp [h2]

theorem splitScheme_snd_mem (l : List Char) : ∀ c ∈ (splitScheme l).2, c ∈ l := by
  unfold splitScheme
  rcases hs : splitOnceL ':' l with ⟨before, rest?⟩
  cases rest? with
  | none => simp
  | some rest =>
      cases before with
      | nil => simp
      | cons b bs =>
          by_cases hg : b.isAlpha = true ∧ bs.all isSchemeChar = true
          · simp only [hg.1, hg.2, and_self, if_true]
            exact splitOnce_snd_mem ':' l _ rest hs
          · have h2 : ¬(b.isAlpha = true ∧ ∀ x ∈ bs, isSchemeChar x = true) := by
              simpa using hg
            simp [h2]

theorem splitScheme_not_alpha (c : Char) (r : List Char) (hc : c.isAlpha = false) :
    splitScheme (c :: r) = ([], c :: r) := by
  unfold splitScheme
  by_cases he : c = ':'
  · subst he
    simp [splitOnceL]
  · simp only [splitOnceL, he, if_neg, ite_false]
    rcases hq : splitOnceL ':' r with ⟨q1, q2⟩
    cases q2 with
    | none => rfl
    | some rest => simp [hc]

theorem splitScheme_lowered (b : Char) (bs rest : List Char)
    (hb : b.isAlpha = true) (hbs : bs.all isSchemeChar = true) :
    splitScheme ((Char.toLower b :: bs.map Char.toLower) ++ ':' :: rest)
      = (Char.toLower b :: bs.map Char.toLower, rest) := by
  have hnc : (':' : Char) ∉ Char.toLower b :: bs.map Char.toLower := by
    intro hm
    rcases List.mem_cons.1 hm with h | h
    · have := isAlpha_toLower b hb
      rw [← h] at this
      exact absurd this (by decide)
    · rcases List.mem_map.1 h with ⟨x, hx, he⟩
      have := isSchemeChar_toLower x (by
        have := List.all_eq_true.1 hbs x hx
        simpa using this)
      rw [he] at this
      exact absurd this (by decide)
  unfold splitScheme
  rw [splitOnce_append ':' _ rest hnc]
  have hga : (Char.toLower b).isAlpha = true := isAlpha_toLower b hb
  have hgs : (bs.map Char.toLower).all isSchemeChar = true := by
    rw [List.all_eq_true]
    intro x hx
    rcases List.mem_map.1 hx with ⟨y, hy, he⟩
    rw [← he]
    exact isSchemeChar_toLower y (by
      have := List.all_eq_true.1 hbs y hy
      simpa using this)
  simp only [hga, hgs, and_self, if_true]
  rw [List.map_cons, toLower_idem, List.map_map]
  congr 2
  apply List.map_congr_left
  intro a _
  simp [Function.comp, toLower_idem]

theorem urlsplit_ok_inv (u : List Char) (p : SplitResult) (h : urlsplitPy u = .ok p) :
    (p.scheme = []
        ∨ ∃ (b : Char) (bs : List Char),
            p.scheme = Char.toLower b :: bs.map Char.toLower
              ∧ b.isAlpha = true ∧ bs.all isSchemeChar = true)
      ∧ (∀ c ∈ p.netloc, ¬(c = '/' ∨ c = '?' ∨ c = '#'))
      ∧ p.netloc.contains '[' = false ∧ p.netloc.contains ']' = false
      ∧ p.netloc.all (fun c => c.toNat < 128) = true
      ∧ (∀ c ∈ p.netloc, ¬(c = '\t' ∨ c = '\r' ∨ c = '\n')) := by
  simp only [urlsplitPy, urlsplitCore] at h
  split at h
  case _ rest heq =>
      split at h
      · exact absurd h (by simp)
      · split at h
        · exact absurd h (by simp)
        next hbr hascii =>
            simp only [Except.ok.injEq] at h
            subst h
            refine ⟨?_, ?_, ?_, ?_, ?_, ?_⟩
            · exact splitScheme_fst_inv _
            · intro c hc
              have := List.mem_takeWhile_imp hc
              simpa using this
            · simpa using fun h1 => hbr (Or.inl h1)
            · simpa using fun h1 => hbr (Or.inr h1)
            · simpa using hascii
            · intro c hc
              have h1 : c ∈ rest := (List.takeWhile_sublist _).subset hc
              have h2 : c ∈ ('/' :: '/' :: rest) := by
                exact List.mem_cons_of_mem _ (List.mem_cons_of_mem _ h1)
              rw [← heq] at h2
              have h3 := splitScheme_snd_mem _ c h2
              have h4 := List.of_mem_filter h3
              simpa using h4
  case _ other heq =>
      simp only [Except.ok.injEq] at h
      subst h
      refine ⟨splitScheme_fst_inv _, ?_, ?_, ?_, ?_, ?_⟩ <;> simp

theorem alpha_ne_ctl (c : Char) (h : c.isAlpha = true) :
    ¬(c = '\t' ∨ c = '\r' ∨ c = '\n') := by
  rintro (e | e | e) <;> rw [e] at h <;> exact absurd h (by decide)

theorem schemeChar_ne_ctl (c : Char) (h : isSchemeChar c = true) :
    ¬(c = '\t' ∨ c = '\r' ∨ c = '\n') := by
  rintro (e | e | e) <;> rw [e] at h <;> exact absurd h (by decide)


theorem urlsplitCore_netloc_branch (s netloc u₀ : List Char)
    (hss : splitScheme u₀ = (s, '/' :: '/' :: (netloc ++ healthzPath)))
    (hn2 : ∀ c ∈ netloc, ¬(c = '/' ∨ c = '?' ∨ c = '#'))
    (hn3a : netloc.contains '[' = false) (hn3b : netloc.contains ']' = false)
    (hn4 : netloc.all (fun c => c.toNat < 128) = true) :
    urlsplitCore u₀ = .ok ⟨s, netloc, healthzPath, [], []⟩ := by
  have htake : (netloc ++ healthzPath).takeWhile
      (fun c => ¬(c = '/' ∨ c = '?' ∨ c = '#')) = netloc := by
    have hh : healthzPath = '/' :: "healthz".data := rfl
    rw [hh]
    apply takeWhile_append_stop
    · intro c hc
      simpa using hn2 c hc
    · decide
  have hdrop : (netloc ++ healthzPath).drop netloc.length = healthzPath :=
    List.drop_left _ _
  have hbr : ¬(netloc.contains '[' ∨ netloc.contains ']') := by
    rintro (e | e)
    · rw [hn3a] at e
      exact absurd e (by decide)
    · rw [hn3b] at e
      exact absurd e (by decide)
  have hhash : splitOnceL '#' healthzPath = (healthzPath, none) :=
    splitOnce_not_mem _ _ (by decide)
  have hquest : splitOnceL '?' healthzPath = (healthzPath, none) :=
    splitOnce_not_mem _ _ (by decide)
  simp only [urlsplitCore, hss, htake, hdrop, hbr, if_false, ite_false, hn4,
    Bool.not_true, hhash, hquest, Option.getD_none]
  rfl

theorem urlsplitCore_plain_branch (s u₀ : List Char)
    (hss : splitScheme u₀ = (s, healthzPath)) :
    urlsplitCore u₀ = .ok ⟨s, [], healthzPath, [], []⟩ := by
  simp only [urlsplitCore, hss]
  simp [splitOnceL, healthzPath]

theorem urlsplitPy_eq_core (c₀ : Char) (r : List Char)
    (h32 : ¬(c₀.toNat ≤ 32))
    (hfil : ∀ c ∈ (c₀ :: r), ¬(c = '\t' ∨ c = '\r' ∨ c = '\n')) :
    urlsplitPy (c₀ :: r) = urlsplitCore (c₀ :: r) := by
  simp only [urlsplitPy]
  have hdw : (c₀ :: r).dropWhile (fun c => c.toNat ≤ 32) = c₀ :: r := by
    simp [List.dropWhile_cons, h32]
  rw [hdw]
  have hf : (c₀ :: r).filter (fun c => ¬(c = '\t' ∨ c = '\r' ∨ c = '\n')) = c₀ :: r := by
    apply List.filter_eq_self.mpr
    intro a ha
    simpa using hfil a ha
  rw [hf]

theorem healthz_chars_clean :
    ∀ c ∈ healthzPath, ¬(c = '\t' ∨ c = '\r' ∨ c = '\n') := by
  decide

theorem urlsplit_of_assembled (scheme netloc : List Char)
    (hs : scheme = []
        ∨ ∃ (b : Char) (bs : List Char),
            scheme = Char.toLower b :: bs.map Char.toLower
              ∧ b.isAlpha = true ∧ bs.all isSchemeChar = true)
    (hn2 : ∀ c ∈ netloc, ¬(c = '/' ∨ c = '?' ∨ c = '#'))
    (hn3a : netloc.contains '[' = false) (hn3b : netloc.contains ']' = false)
    (hn4 : netloc.all (fun c => c.toNat < 128) = true)
    (hn5 : ∀ c ∈ netloc, ¬(c = '\t' ∨ c = '\r' ∨ c = '\n')) :
    urlsplitPy (urlunsplitPy scheme netloc healthzPath [] [])
      = .ok ⟨scheme, netloc, healthzPath, [], []⟩ := by
  have hinner : ¬((!healthzPath.isEmpty) = true ∧ healthzPath.head? ≠ some '/') := by
    decide
  have hslash : ∀ c ∈ ('/' :: '/' :: (netloc ++ healthzPath)),
      ¬(c = '\t' ∨ c = '\r' ∨ c = '\n') := by
    intro c hc
    rcases List.mem_cons.1 hc with h | hc
    · subst h; decide
    rcases List.mem_cons.1 hc with h | hc
    · subst h; decide
    rcases List.mem_append.1 hc with h | h
    · exact hn5 c h
    · exact healthz_chars_clean c h
  by_cases hcond : ((!netloc.isEmpty) = true
      ∨ ((!scheme.isEmpty) = true ∧ uses_netloc.contains scheme = true
          ∧ healthzPath.take 2 ≠ ['/', '/']))
  · have hu0 : urlunsplitPy scheme netloc healthzPath [] []
        = (if (!scheme.isEmpty) = true then
            scheme ++ ':' :: ('/' :: '/' :: (netloc ++ healthzPath))
          else '/' :: '/' :: (netloc ++ healthzPath)) := by
      simp only [urlunsplitPy]
      rw [if_pos hcond, if_neg hinner]
      rfl
    rcases hs with hsnil | ⟨b, bs, hsch, hb, hbs⟩
    · subst hsnil
      rw [hu0]
      rw [if_neg (by decide : ¬((!(([] : List Char).isEmpty)) = true))]
      rw [urlsplitPy_eq_core '/' _ (by decide) hslash]
      exact urlsplitCore_netloc_branch [] netloc _
        (splitScheme_not_alpha '/' _ (by decide)) hn2 hn3a hn3b hn4
    · have hsne : (!scheme.isEmpty) = true := by
        rw [hsch]
        rfl
      rw [hu0, if_pos hsne, hsch, List.cons_append]
      have hfl : ∀ c ∈ (Char.toLower b
            :: ((bs.map Char.toLower) ++ ':' :: ('/' :: '/' :: (netloc ++ healthzPath)))),
          ¬(c = '\t' ∨ c = '\r' ∨ c = '\n') := by
        intro c hc
        rcases List.mem_cons.1 hc with h | hc
        · subst h
          exact alpha_ne_ctl _ (isAlpha_toLower b hb)
        rcases List.mem_append.1 hc with h | hc
        · rcases List.mem_map.1 h with ⟨y, hy, he⟩
          subst he
          exact schemeChar_ne_ctl _ (isSchemeChar_toLower y
            (by simpa using List.all_eq_true.1 hbs y hy))
        rcases List.mem_cons.1 hc with h | hc
        · subst h; decide
        · exact hslash c hc
      rw [urlsplitPy_eq_core (Char.toLower b) _
        (by
          have := alpha_gt_32 _ (isAlpha_toLower b hb)
          omega) hfl]
      rw [← List.cons_append, ← hsch]
      refine urlsplitCore_netloc_branch scheme netloc _ ?_ hn2 hn3a hn3b hn4
      rw [hsch]
      exact splitScheme_lowered b bs _ hb hbs
  · have hnl : netloc = [] := by
      rcases netloc with _ | ⟨x, xs⟩
      · rfl
      · exact absurd (Or.inl rfl) hcond
    subst hnl
    have hu0 : urlunsplitPy scheme [] healthzPath [] []
        = (if (!scheme.isEmpty) = true then scheme ++ ':' :: healthzPath
          else healthzPath) := by
      simp only [urlunsplitPy]
      rw [if_neg hcond]
      rfl
    rcases hs with hsnil | ⟨b, bs, hsch, hb, hbs⟩
    · subst hsnil
      rw [hu0]
      rw [if_neg (by decide : ¬((!(([] : List Char).isEmpty)) = true))]
      have hd : healthzPath = '/' :: "healthz".data := rfl
      rw [hd]
      rw [urlsplitPy_eq_core '/' _ (by decide)
        (by rw [← hd]; exact healthz_chars_clean)]
      rw [← hd]
      exact urlsplitCore_plain_branch [] _ (by
        rw [hd]
        exact splitScheme_not_alpha '/' _ (by decide))
    · have hsne : (!scheme.isEmpty) = true := by
        rw [hsch]
        rfl
      rw [hu0, if_pos hsne, hsch, List.cons_append]
      have hfl : ∀ c ∈ (Char.toLower b :: ((bs.map Char.toLower) ++ ':' :: healthzPath)),
          ¬(c = '\t' ∨ c = '\r' ∨ c = '\n') := by
        intro c hc
        rcases List.mem_cons.1 hc with h | hc
        · subst h
          exact alpha_ne_ctl _ (isAlpha_toLower b hb)
        rcases List.mem_append.1 hc with h | hc
        · rcases List.mem_map.1 h with ⟨y, hy, he⟩
          subst he
          exact schemeChar_ne_ctl _ (isSchemeChar_toLower y
            (by simpa using List.all_eq_true.1 hbs y hy))
        rcases List.mem_cons.1 hc with h | hc
        · subst h; decide
        · exact healthz_chars_clean c hc
      rw [urlsplitPy_eq_core (Char.toLower b) _
        (by
          have := alpha_gt_32 _ (isAlpha_toLower b hb)
          omega) hfl]
      rw [← List.cons_append, ← hsch]
      refine urlsplitCore_plain_branch scheme _ ?_
      rw [hsch]
      exact splitScheme_lowered b bs _ hb hbs

/-- C8.  For every transport URL the model can parse, the default
health-check URL — used exactly when no truthy explicit override is
given — is obtained by replacing the URL's path with `/healthz` (and
emptying the query and fragment) while keeping the scheme and network
location unchanged: re-splitting the derived URL yields the original
scheme and netloc with path `/healthz`. -/
theorem health_url_replaces_path (u : String) (p : SplitResult)
    (h : urlsplitPy u.data = .ok p) :
    default_health_url u
        = .ok (String.mk (urlunsplitPy p.scheme p.netloc "/healthz".data [] []))
      ∧ urlsplitPy (String.mk
            (urlunsplitPy p.scheme p.netloc "/healthz".data [] [])).data
        = .ok ⟨p.scheme, p.netloc, "/healthz".data, [], []⟩
      ∧ build_config_health_url none u = default_health_url u
      ∧ (∀ s : String, s ≠ "" → build_config_health_url (some s) u = .ok s) := by
  obtain ⟨hs, hn2, hn3a, hn3b, hn4, hn5⟩ := urlsplit_ok_inv u.data p h
  refine ⟨?_, ?_, rfl, ?_⟩
  · simp [default_health_url, h]
  · have he : "/healthz".data = healthzPath := rfl
    have hm : (String.mk (urlunsplitPy p.scheme p.netloc "/healthz".data [] [])).data
        = urlunsplitPy p.scheme p.netloc "/healthz".data [] [] := rfl
    rw [hm, he]
    exact urlsplit_of_assembled p.scheme p.netloc hs hn2 hn3a hn3b hn4 hn5
  · intro s hsne
    simp [build_config_health_url, hsne]

/-- C8 witness at the default transport URL. -/
theorem health_url_replaces_path_witness :
    default_health_url "http://127.0.0.1:8085/sse"
        = .ok "http://127.0.0.1:8085/healthz"
      ∧ urlsplitPy ("http://127.0.0.1:8085/healthz").data
        = .ok ⟨"http".data, "127.0.0.1:8085".data, "/healthz".data, [], []⟩
      ∧ build_config_health_url (some "http://operator/healthz")
          "http://127.0.0.1:8085/sse" = .ok "http://operator/healthz" := by
  have h := health_url_replaces_path "http://127.0.0.1:8085/sse"
    ⟨"http".data, "127.0.0.1:8085".data, "/sse".data, [], []⟩ (by rfl)
  refine ⟨?_, ?_, ?_⟩
  · rw [h.1]
    rfl
  · exact h.2.1
  · exact h.2.2.2 "http://operator/healthz" (by decide)

/-- C5 counterexample.  The claimed construction — render each tool as
`- name: description`, join with newlines, splice between header and goal
suffix — fails as soon as a description contains a whitespace-only line:
`textwrap.dedent` runs over the template *after* interpolation and blanks
the `" "` line of the description `"x\n \ny"` (CPython blanks
`[ \t]`-only lines before computing the margin), so the prompt the code
sends is not the newline-join of the rendered summary lines. -/
theorem plan_prompt_dedent_blanks_ws_lines :
    buildPlanPrompt [⟨"t", some "x\n \ny"⟩] "go"
        ≠ "\n                    Available tools:\n"
            ++ pyJoinNl ([(⟨"t", some "x\n \ny"⟩ : Tool)].map planLine)
            ++ "\n\n" ++ "Goal: " ++ "go"
            ++ "\nSuggest concrete steps and relevant tool names."
      ∧ buildPlanPrompt [⟨"t", some "x\n \ny"⟩] "go"
        = "\n                    Available tools:\n- t: x\n\ny\n\nGoal: go\nSuggest concrete steps and relevant tool names." := by
  constructor
  · decide
  · rfl
